import Mathlib

/-!
Shallow embedding of the Wordle simulator (src/wordle.py): the grading
routine `Wordle.try_word`, the explicit-target branch of `Wordle.set_target`,
the candidate filter shared by `FilterBot` / `FreqFilterBot` / `FreqFilterBot2`,
the letter-frequency and positional-frequency scoring, the stable-sort-based
argmax selection, and the game loop `WordleBotBase.play_game`.

Words are lists of characters; a letter verdict is a pair of the guessed
letter and its numeric status exactly as in the source (0 = no match,
1 = letter in word, 2 = letter in correct place).  Python float division is
modelled by exact rational division on `Rat`.
-/

/-- Words are sequences of characters (Python strings of length 5). -/
abbrev Word := List Char

/-- One letter verdict: the guessed letter with its numeric match status,
as built by `Wordle.try_word` (0 = no match, 1 = in word, 2 = correct place). -/
abbrev Verdict := Char × Nat

/-- One graded guess: the list of per-position verdicts (`res` in the source). -/
abbrev GuessRecord := List Verdict

/-- Failure modes of the simulator: the two assertions of `Wordle.try_word`
(length check, dictionary membership) and the assertion of `Wordle.set_target`
(explicit target must be in the dictionary). -/
inductive WordleErr where
  | invalidGuess
  | unknownWord
  | invalidTarget
deriving DecidableEq

/-- Embeds the explicit-target branch of `Wordle.set_target`
(src/wordle.py lines 46-48): an explicit target not in the dictionary is
rejected. -/
def setTarget (dict : List Word) (t : Word) : Except WordleErr Word :=
  if t ∈ dict then .ok t else .error .invalidTarget

/-- Embeds the body of the grading loop of `Wordle.try_word`
(src/wordle.py lines 68-74) at position i: status 2 on an exact positional
match, else status 1 when the guessed letter occurs anywhere in the target,
else status 0.  Out-of-range positions (never reached on length-5 words)
read the default character. -/
def gradeLetter (target word : Word) (i : Nat) : Verdict :=
  if word.getD i 'a' = target.getD i 'a' then (word.getD i 'a', 2)
  else if word.getD i 'a' ∈ target then (word.getD i 'a', 1)
  else (word.getD i 'a', 0)

/-- Embeds the `res` list built by `Wordle.try_word` (src/wordle.py lines
67-74): one verdict per position 0..4, in guess position order. -/
def gradeWord (target word : Word) : GuessRecord :=
  (List.range 5).map (gradeLetter target word)

/-- Embeds the win flag of `Wordle.try_word` (src/wordle.py line 76):
all statuses equal 2. -/
def isWin (res : GuessRecord) : Bool :=
  res.all fun l => l.2 == 2

/-- Embeds `Wordle.try_word` (src/wordle.py lines 51-77): assert the guess
has length 5, assert it belongs to the dictionary (in that order), then
grade it and report the win flag. -/
def tryWord (dict : List Word) (target word : Word) :
    Except WordleErr (GuessRecord × Bool) :=
  if word.length ≠ 5 then .error .invalidGuess
  else if word ∉ dict then .error .unknownWord
  else
    let res := gradeWord target word
    .ok (res, isWin res)

/-- Embeds one disjunct bundle of the candidate-filter predicate shared by
the bots (src/wordle.py lines 203-208): position i with verdict t
disqualifies word w when (status 0 and letter in w), (status 1 and letter
not in w), (status 1 and letter at this position of w), or (status 2 and
letter not at this position of w). -/
def violatesAt (w : Word) (i : Nat) (t : Verdict) : Bool :=
  (decide (t.2 = 0) && decide (t.1 ∈ w)) ||
  (decide (t.2 = 1) && !decide (t.1 ∈ w)) ||
  (decide (t.2 = 1) && decide (t.1 = w.getD i 'a')) ||
  (decide (t.2 = 2) && !decide (t.1 = w.getD i 'a'))

/-- Embeds the per-word keep condition of the filter comprehension
(src/wordle.py lines 202-208): keep w when no enumerated position of the
record disqualifies it. -/
def keepWord (w : Word) (rec : GuessRecord) : Bool :=
  !(rec.enum.any fun p => violatesAt w p.1 p.2)

/-- Embeds the list comprehension filtering `working_dict` by the most
recent record (src/wordle.py lines 201-209); list order is preserved. -/
def filterCands (cands : List Word) (rec : GuessRecord) : List Word :=
  cands.filter fun w => keepWord w rec

/-- Embeds the guard `if len(past_guesses) > 0` plus `past_guesses[-1]`
(src/wordle.py lines 200-209): filter by the last record when the history
is non-empty, otherwise leave the candidate list unchanged. -/
def filterStep (cands : List Word) (past : List GuessRecord) : List Word :=
  match past.getLast? with
  | none => cands
  | some rec => filterCands cands rec

/-- Embeds `char_freq` (src/wordle.py lines 245-246 and 290-291): the number
of occurrences of the letter in the concatenation of all candidate words,
divided by the number of candidate words. -/
def charFreq (cands : List Word) (l : Char) : ℚ :=
  ((cands.flatten.count l : ℕ) : ℚ) / (cands.length : ℚ)

/-- Embeds the `FreqFilterBot` word score (src/wordle.py line 249): the sum
of `char_freq` over the distinct letters of the word (Python `set(w)`). -/
def scoreFreq (cands : List Word) (w : Word) : ℚ :=
  (w.dedup.map (charFreq cands)).sum

/-- Embeds `cpos_freq` (src/wordle.py lines 292-293): the number of
candidate words carrying letter l at position i (a raw count). -/
def cposFreq (cands : List Word) (l : Char) (i : Nat) : ℕ :=
  cands.countP fun w => decide (l = w.getD i 'a')

/-- Embeds the `FreqFilterBot2` word score (src/wordle.py lines 297-299):
sum over the enumerated positions (i, l) of the word of
char_freq(l) / count(l in w) * (1 + cpos_freq(l)(i) / sum of cpos_freq(l) / pos_wgt). -/
def scorePos (cands : List Word) (posWgt : ℚ) (w : Word) : ℚ :=
  (w.enum.map fun p =>
    charFreq cands p.2 / (w.count p.2 : ℚ) *
      (1 + ((cposFreq cands p.2 p.1 : ℚ) /
        ((List.range 5).map fun j => ((cposFreq cands p.2 j : ℕ) : ℚ)).sum /
        posWgt))).sum

/-- Descending comparison on scored pairs used by the bots'
`sorted(scores, key=lambda x: x[1], reverse=True)` (src/wordle.py lines
250 and 301): a precedes b when b's score is at most a's score. -/
def descBy {α : Type} : (α × ℚ) → (α × ℚ) → Bool :=
  fun a b => decide (b.2 ≤ a.2)

/-- Embeds `sorted(scores, ..., reverse=True)` followed by `scores[0][0]`
(src/wordle.py lines 250-253 and 301-303): Python's sort is stable, so the
head of a stable descending merge sort is taken; `none` models the
IndexError on an empty candidate list. -/
def pickTop {α : Type} (scores : List (α × ℚ)) : Option α :=
  ((scores.mergeSort descBy).head?).map Prod.fst

/-- Embeds the scored list of `FreqFilterBot.next_guess`
(src/wordle.py line 249), in candidate order. -/
def scoresFreq (cands : List Word) : List (Word × ℚ) :=
  cands.map fun w => (w, scoreFreq cands w)

/-- Embeds the scored list of `FreqFilterBot2.next_guess`
(src/wordle.py lines 297-299), in candidate order. -/
def scoresPos (cands : List Word) (posWgt : ℚ) : List (Word × ℚ) :=
  cands.map fun w => (w, scorePos cands posWgt w)

/-- Embeds `FreqFilterBot.next_guess` (src/wordle.py lines 229-255):
filter the working dictionary by the last record, then pick the highest
scoring word; returns the guess together with the narrowed working
dictionary (the mutation of `self.working_dict`). -/
def nextGuessFreq (working : List Word) (past : List GuessRecord) :
    Option Word × List Word :=
  let cands := filterStep working past
  (pickTop (scoresFreq cands), cands)

/-- Embeds `FreqFilterBot2.next_guess` (src/wordle.py lines 273-305),
analogously to `nextGuessFreq`. -/
def nextGuessPos (working : List Word) (posWgt : ℚ)
    (past : List GuessRecord) : Option Word × List Word :=
  let cands := filterStep working past
  (pickTop (scoresPos cands posWgt), cands)

/-- Embeds the while-loop of `WordleBotBase.play_game` (src/wordle.py lines
125-137), with fuel equal to `6 - guesses`: grade the bot's guess, append
the record, stop with the incremented guess count on a win, stop with the
loss marker count (two increments) once six guesses are used, otherwise
continue.  Started at fuel 6 and guesses 0, the fuel-0 base case is never
reached. -/
def playAux (bot : List GuessRecord → Word) (dict : List Word)
    (target : Word) :
    Nat → Nat → List GuessRecord → Except WordleErr (Bool × Nat × List GuessRecord)
  | fuel+1, guesses, past =>
    match tryWord dict target (bot past) with
    | .error e => .error e
    | .ok (res, win) =>
      if win then .ok (win, guesses + 1, past ++ [res])
      else if guesses + 1 = 6 then .ok (win, guesses + 2, past ++ [res])
      else playAux bot dict target fuel (guesses + 1) (past ++ [res])
  | 0, guesses, past => .ok (false, guesses, past)

/-- Embeds `WordleBotBase.play_game` (src/wordle.py lines 112-139): run the
loop from zero guesses and an empty history; `max_guesses` is 6. -/
def playGame (bot : List GuessRecord → Word) (dict : List Word)
    (target : Word) : Except WordleErr (Bool × Nat × List GuessRecord) :=
  playAux bot dict target 6 0 []

/-- Target word of the worked example in the source (src/wordle.py line 61). -/
def whackW : Word := ['w', 'h', 'a', 'c', 'k']

/-- Guess word of the worked example in the source (src/wordle.py line 61). -/
def crankW : Word := ['c', 'r', 'a', 'n', 'k']

/-- Small concrete dictionary used to instantiate theorems on the worked
example of the source. -/
def dictEx : List Word := [whackW, crankW]

/-- Record lookup helper: within range, the graded record holds the verdict
computed by `gradeLetter`. -/
lemma gradeWord_getD (t g : Word) (d : Verdict) (i : Nat) (hi : i < 5) :
    (gradeWord t g).getD i d = gradeLetter t g i := by
  simp [gradeWord, List.getD_eq_getElem?_getD, List.getElem?_map,
    List.getElem?_range, hi]

/-- Win-flag helper: the record of a graded guess wins exactly when every
position got status 2. -/
lemma isWin_gradeWord (t g : Word) :
    isWin (gradeWord t g) = true ↔ ∀ i, i < 5 → (gradeLetter t g i).2 = 2 := by
  simp [isWin, gradeWord, List.all_eq_true]

/-- Status helper: a position gets status 2 exactly when the guess and
target agree there. -/
lemma gradeLetter_status_two (t g : Word) (i : Nat) :
    (gradeLetter t g i).2 = 2 ↔ g.getD i 'a' = t.getD i 'a' := by
  unfold gradeLetter
  split_ifs with h1 h2 <;> simp_all

/-- Success helper: on a length-5 dictionary guess, `tryWord` returns the
graded record with its win flag. -/
lemma tryWord_ok (dict : List Word) (t g : Word) (hg : g.length = 5)
    (hmem : g ∈ dict) :
    tryWord dict t g = .ok (gradeWord t g, isWin (gradeWord t g)) := by
  simp [tryWord, hg, hmem]

/-- Claim C1: for every 5-letter target and every 5-letter dictionary guess,
grading produces exactly 5 letter verdicts in guess position order, where
position i gets status 2 (ExactMatch) if the letters agree, else status 1
(Present) if the guessed letter occurs anywhere in the target, else status 0
(NoMatch), and the win flag is the conjunction of all five statuses being 2;
in particular grading guess crank against target whack yields
[(c,1),(r,0),(a,2),(n,0),(k,2)] with a false win flag. -/
theorem C1_grading (dict : List Word) (target guess : Word)
    (ht : target.length = 5) (hg : guess.length = 5) (hmem : guess ∈ dict) :
    (∃ res win, tryWord dict target guess = .ok (res, win) ∧
      res.length = 5 ∧
      (∀ i, i < 5 →
        (res.getD i ('a', 3)).1 = guess.getD i 'a' ∧
        (guess.getD i 'a' = target.getD i 'a' → (res.getD i ('a', 3)).2 = 2) ∧
        (guess.getD i 'a' ≠ target.getD i 'a' → guess.getD i 'a' ∈ target →
          (res.getD i ('a', 3)).2 = 1) ∧
        (guess.getD i 'a' ≠ target.getD i 'a' → guess.getD i 'a' ∉ target →
          (res.getD i ('a', 3)).2 = 0)) ∧
      (win = true ↔ ∀ i, i < 5 → (res.getD i ('a', 3)).2 = 2)) ∧
    tryWord dictEx whackW crankW =
      .ok ([('c', 1), ('r', 0), ('a', 2), ('n', 0), ('k', 2)], false) := by
  refine ⟨⟨gradeWord target guess, isWin (gradeWord target guess),
    tryWord_ok dict target guess hg hmem, by simp [gradeWord], ?_, ?_⟩, rfl⟩
  · intro i hi
    rw [gradeWord_getD target guess _ i hi]
    unfold gradeLetter
    split_ifs with h1 h2 <;> simp_all
  · rw [isWin_gradeWord]
    constructor
    · intro h i hi
      rw [gradeWord_getD target guess _ i hi]
      exact h i hi
    · intro h i hi
      have := h i hi
      rwa [gradeWord_getD target guess _ i hi] at this

/-- Witness for C1 at the worked example of the source. -/
theorem C1_grading_witness :
    whackW.length = 5 ∧ crankW.length = 5 ∧ crankW ∈ dictEx ∧
    tryWord dictEx whackW crankW =
      .ok ([('c', 1), ('r', 0), ('a', 2), ('n', 0), ('k', 2)], false) :=
  ⟨rfl, rfl, by decide,
    (C1_grading dictEx whackW crankW rfl rfl (by decide)).2⟩

/-- Claim C9: grading fails with invalidGuess exactly for guesses of length
other than 5, with unknownWord exactly for length-5 guesses outside the
dictionary (the length check runs first), succeeds on every guess meeting
both preconditions, and constructing a game with an explicit target outside
the dictionary fails with invalidTarget. -/
theorem C9_errors (dict : List Word) (target guess : Word) :
    (tryWord dict target guess = .error .invalidGuess ↔ guess.length ≠ 5) ∧
    (tryWord dict target guess = .error .unknownWord ↔
      guess.length = 5 ∧ guess ∉ dict) ∧
    (guess.length = 5 → guess ∈ dict →
      tryWord dict target guess =
        .ok (gradeWord target guess, isWin (gradeWord target guess))) ∧
    ∀ t, (setTarget dict t = .error .invalidTarget ↔ t ∉ dict) := by
  refine ⟨?_, ?_, fun h5 hd => tryWord_ok dict target guess h5 hd, fun t => ?_⟩
  · by_cases h5 : guess.length = 5 <;>
      by_cases hd : guess ∈ dict <;> simp [tryWord, h5, hd]
  · by_cases h5 : guess.length = 5 <;>
      by_cases hd : guess ∈ dict <;> simp [tryWord, h5, hd]
  · by_cases hmem : t ∈ dict <;> simp [setTarget, hmem]

/-- Witness for C9: a short guess, an unknown length-5 guess, a valid guess
and an invalid explicit target, all on the concrete example dictionary. -/
theorem C9_errors_witness :
    tryWord dictEx whackW ['a', 'b', 'c', 'd'] = .error .invalidGuess ∧
    tryWord dictEx whackW ['t', 'r', 'a', 'c', 'k'] = .error .unknownWord ∧
    tryWord dictEx whackW crankW =
      .ok (gradeWord whackW crankW, isWin (gradeWord whackW crankW)) ∧
    setTarget dictEx ['t', 'r', 'a', 'c', 'k'] = .error .invalidTarget :=
  ⟨(C9_errors dictEx whackW ['a', 'b', 'c', 'd']).1.mpr (by decide),
   (C9_errors dictEx whackW ['t', 'r', 'a', 'c', 'k']).2.1.mpr
     ⟨rfl, by decide⟩,
   (C9_errors dictEx whackW crankW).2.2.1 rfl (by decide),
   ((C9_errors dictEx whackW crankW).2.2.2 ['t', 'r', 'a', 'c', 'k']).mpr
     (by decide)⟩

/-- Claim C10: on a 5-letter target and a 5-letter dictionary guess, the win
flag produced by grading is true exactly when the guess equals the target. -/
theorem C10_win_iff_target (dict : List Word) (target guess : Word)
    (ht : target.length = 5) (hg : guess.length = 5) (hmem : guess ∈ dict)
    (res : GuessRecord) (win : Bool)
    (h : tryWord dict target guess = .ok (res, win)) :
    win = true ↔ guess = target := by
  rw [tryWord_ok dict target guess hg hmem] at h
  have hres : res = gradeWord target guess := by
    injection h with h1
    exact (congrArg Prod.fst h1).symm
  have hwin : win = isWin (gradeWord target guess) := by
    injection h with h1
    exact (congrArg Prod.snd h1).symm
  subst hwin
  rw [isWin_gradeWord]
  constructor
  · intro hall
    apply List.ext_getElem (by rw [hg, ht])
    intro i hi1 hi2
    have hi : i < 5 := by omega
    have h2 := (gradeLetter_status_two target guess i).mp (hall i hi)
    rwa [List.getD_eq_getElem _ _ hi1, List.getD_eq_getElem _ _ hi2] at h2
  · intro heq i hi
    rw [gradeLetter_status_two, heq]

/-- Witness for C10 at the worked example: guessing crank against target
whack does not win, and indeed crank differs from whack. -/
theorem C10_win_iff_target_witness :
    isWin (gradeWord whackW crankW) = true ↔ crankW = whackW :=
  C10_win_iff_target dictEx whackW crankW rfl rfl (by decide)
    (gradeWord whackW crankW) (isWin (gradeWord whackW crankW)) rfl

/-- Enumeration helper: the filter's any-clause over an enumerated record,
started at offset n, fires exactly when some position fires. -/
lemma any_violates_enumFrom (w : Word) (rec : GuessRecord) :
    ∀ n : Nat,
    ((rec.enumFrom n).any fun p => violatesAt w p.1 p.2) = true ↔
      ∃ j, ∃ h : j < rec.length, violatesAt w (n + j) (rec.get ⟨j, h⟩) = true := by
  induction rec with
  | nil => intro n; simp
  | cons t rec ih =>
    intro n
    simp only [List.enumFrom_cons, List.any_cons, Bool.or_eq_true, ih (n + 1)]
    constructor
    · rintro (h | ⟨j, hj, h⟩)
      · exact ⟨0, by simp, by simpa using h⟩
      · refine ⟨j + 1, by simpa using hj, ?_⟩
        rw [List.get_cons_succ]
        rw [Nat.add_right_comm] at h
        exact h
    · rintro ⟨j, hj, h⟩
      match j with
      | 0 => exact Or.inl (by simpa using h)
      | j + 1 =>
        refine Or.inr ⟨j, by simpa using hj, ?_⟩
        rw [Nat.add_right_comm]
        rw [List.get_cons_succ] at h
        exact h

/-- Keep-condition helper: a word is kept by a record exactly when no
position of the record fires against it. -/
lemma keepWord_iff (w : Word) (rec : GuessRecord) :
    keepWord w rec = true ↔
      ∀ j, ∀ h : j < rec.length, violatesAt w j (rec.get ⟨j, h⟩) = false := by
  have base : List.enum rec = List.enumFrom 0 rec := rfl
  rw [keepWord, Bool.not_eq_true']
  rw [base]
  rw [← Bool.not_eq_true (List.any _ _), any_violates_enumFrom w rec 0]
  simp [Bool.not_eq_true]

/-- Firing-condition helper: the boolean disjunct bundle of the filter,
restated as a proposition. -/
lemma violatesAt_true_iff (w : Word) (i : Nat) (t : Verdict) :
    violatesAt w i t = true ↔
      ((t.2 = 0 ∧ t.1 ∈ w) ∨
       (t.2 = 1 ∧ (t.1 ∉ w ∨ t.1 = w.getD i 'a')) ∨
       (t.2 = 2 ∧ t.1 ≠ w.getD i 'a')) := by
  simp only [violatesAt, Bool.or_eq_true, Bool.and_eq_true, decide_eq_true_iff,
    Bool.not_eq_true', decide_eq_false_iff_not]
  tauto

/-- Soundness helper: grading a guess against a target never produces a
record whose filter clauses fire against the target itself. -/
lemma keepWord_target (target guess : Word) :
    keepWord target (gradeWord target guess) = true := by
  rw [keepWord_iff]
  intro j hj
  have hj5 : j < 5 := by simpa [gradeWord] using hj
  have hget : (gradeWord target guess).get ⟨j, hj⟩ = gradeLetter target guess j := by
    simp [gradeWord]
  rw [hget]
  rw [← Bool.not_eq_true, violatesAt_true_iff]
  unfold gradeLetter
  split_ifs with h1 h2 <;> simp_all

/-- Single-step soundness: the target survives one filtering by its own
graded record. -/
lemma target_mem_filterCands (cands : List Word) (target guess : Word)
    (h : target ∈ cands) :
    target ∈ filterCands cands (gradeWord target guess) :=
  List.mem_filter.mpr ⟨h, keepWord_target target guess⟩

/-- Claim C2: for every target, every candidate list containing it and every
history of records obtained by grading dictionary words against that target,
folding the candidate filter over the history never eliminates the target. -/
theorem C2_soundness (dict : List Word) (target : Word)
    (ht : target.length = 5) (cands : List Word) (recs : List GuessRecord)
    (hmem : target ∈ cands)
    (hrecs : ∀ r ∈ recs, ∃ g win, g.length = 5 ∧ g ∈ dict ∧
      tryWord dict target g = .ok (r, win)) :
    target ∈ recs.foldl filterCands cands := by
  induction recs generalizing cands with
  | nil => simpa using hmem
  | cons r recs ih =>
    simp only [List.foldl_cons]
    apply ih
    · obtain ⟨g, win, hg, hd, htw⟩ := hrecs r (by simp)
      rw [tryWord_ok dict target g hg hd] at htw
      have hr : r = gradeWord target g := by
        injection htw with h1
        exact (congrArg Prod.fst h1).symm
      rw [hr]
      exact target_mem_filterCands cands target g hmem
    · intro r2 h2
      exact hrecs r2 (by simp [h2])

/-- Witness for C2: the target whack survives filtering by the record of
grading crank against it. -/
theorem C2_soundness_witness :
    whackW.length = 5 ∧ whackW ∈ dictEx ∧
    whackW ∈ [gradeWord whackW crankW].foldl filterCands dictEx := by
  refine ⟨rfl, by decide, C2_soundness dictEx whackW rfl dictEx
    [gradeWord whackW crankW] (by decide) ?_⟩
  intro r hr
  simp only [List.mem_singleton] at hr
  subst hr
  exact ⟨crankW, isWin (gradeWord whackW crankW), rfl, by decide, rfl⟩

/-- Claim C3: the filter keeps a word exactly when it belongs to the
candidate list and no position of the most recent record disqualifies it:
status 0 with the letter occurring in the word, status 1 with the letter
absent or sitting at that very position, or status 2 with the word
disagreeing at that position. -/
theorem C3_filter_iff (cands : List Word) (rec : GuessRecord)
    (hrec : rec.length = 5) (w : Word) :
    w ∈ filterCands cands rec ↔
      w ∈ cands ∧ ∀ i, i < 5 →
        ¬ (((rec.getD i ('a', 3)).2 = 0 ∧ (rec.getD i ('a', 3)).1 ∈ w) ∨
           ((rec.getD i ('a', 3)).2 = 1 ∧
             ((rec.getD i ('a', 3)).1 ∉ w ∨
              (rec.getD i ('a', 3)).1 = w.getD i 'a')) ∨
           ((rec.getD i ('a', 3)).2 = 2 ∧
             (rec.getD i ('a', 3)).1 ≠ w.getD i 'a')) := by
  rw [filterCands, List.mem_filter, keepWord_iff]
  apply and_congr_right
  intro _
  constructor
  · intro h i hi
    have hlt : i < rec.length := by omega
    have e1 : rec.getD i ('a', 3) = rec.get ⟨i, hlt⟩ := by
      rw [List.getD_eq_getElem rec ('a', 3) hlt, List.get_eq_getElem]
    rw [e1]
    rw [← violatesAt_true_iff, h i hlt]
    simp
  · intro h j hj
    have hj5 : j < 5 := by omega
    have e1 : rec.getD j ('a', 3) = rec.get ⟨j, hj⟩ := by
      rw [List.getD_eq_getElem rec ('a', 3) hj, List.get_eq_getElem]
    have hp := h j hj5
    rw [e1, ← violatesAt_true_iff] at hp
    exact Bool.not_eq_true _ ▸ hp

/-- Witness for C3 on the worked example: crank is kept by its own record
while whack is also kept (the record of crank against whack eliminates
neither example word), checked through the characterization. -/
theorem C3_filter_iff_witness :
    (gradeWord whackW crankW).length = 5 ∧
    (whackW ∈ filterCands dictEx (gradeWord whackW crankW) ↔
      whackW ∈ dictEx ∧ ∀ i, i < 5 →
        ¬ ((((gradeWord whackW crankW).getD i ('a', 3)).2 = 0 ∧
              ((gradeWord whackW crankW).getD i ('a', 3)).1 ∈ whackW) ∨
           (((gradeWord whackW crankW).getD i ('a', 3)).2 = 1 ∧
             (((gradeWord whackW crankW).getD i ('a', 3)).1 ∉ whackW ∨
              ((gradeWord whackW crankW).getD i ('a', 3)).1 =
                whackW.getD i 'a')) ∨
           (((gradeWord whackW crankW).getD i ('a', 3)).2 = 2 ∧
             ((gradeWord whackW crankW).getD i ('a', 3)).1 ≠
               whackW.getD i 'a'))) :=
  ⟨rfl, C3_filter_iff dictEx (gradeWord whackW crankW) rfl whackW⟩

/-- Word with a repeated letter used to separate the code's letter
frequency from the spec's description of it. -/
def geeseW : Word := ['g', 'e', 'e', 's', 'e']

/-- Spec-side letter frequency for C4, following the spec's words (section
4.3): the number of candidate words containing the letter at least once,
divided by the candidate count.  Kept separate from the code's `charFreq`
for comparison. -/
def charFreqSpecC4 (cands : List Word) (l : Char) : ℚ :=
  ((cands.countP fun w => decide (l ∈ w) : ℕ) : ℚ) / (cands.length : ℚ)

/-- Counterexample to C4: on the one-word candidate set [geese], the code's
letter frequency of e is 3 (occurrence count) while the spec's formula
gives 1 (one word contains e), so the code does not compute the claimed
quantity. -/
theorem C4_counterexample :
    charFreq [geeseW] 'e' = 3 ∧ charFreqSpecC4 [geeseW] 'e' = 1 ∧
    charFreq [geeseW] 'e' ≠ charFreqSpecC4 [geeseW] 'e' := by
  have h1 : [geeseW].flatten.count 'e' = 3 := by decide
  have h2 : ([geeseW].countP fun w => decide ('e' ∈ w)) = 1 := by decide
  refine ⟨?_, ?_, ?_⟩
  · simp only [charFreq, h1]
    norm_num
  · simp only [charFreqSpecC4, h2]
    norm_num
  · simp only [charFreq, charFreqSpecC4, h1, h2]
    norm_num

/-- Claim C4 as amended: the code's letter frequency is the total number of
occurrences of the letter across all candidate words divided by the
candidate count, and the FreqFilterBot score of a word is the sum of that
frequency over the word's distinct letters (duplicates counted once). -/
theorem C4_amended (cands : List Word) (h : cands ≠ []) (l : Char) (w : Word) :
    charFreq cands l =
      (((cands.map fun v => v.count l).sum : ℕ) : ℚ) / (cands.length : ℚ) ∧
    scoreFreq cands w = ∑ c ∈ w.toFinset, charFreq cands c := by
  constructor
  · rw [charFreq, List.count_flatten]
  · rw [scoreFreq]
    have hdedup : w.dedup.toFinset = w.toFinset :=
      Finset.ext fun a => by simp
    rw [← hdedup, List.sum_toFinset _ (List.nodup_dedup w)]

/-- Witness for C4's amended statement on a concrete one-word candidate set. -/
theorem C4_amended_witness :
    ([crankW] : List Word) ≠ [] ∧
    (charFreq [crankW] 'a' =
      ((([crankW].map fun v => v.count 'a').sum : ℕ) : ℚ) /
        (([crankW] : List Word).length : ℚ) ∧
     scoreFreq [crankW] crankW = ∑ c ∈ crankW.toFinset, charFreq [crankW] c) :=
  ⟨by decide, C4_amended [crankW] (by decide) 'a' crankW⟩

/-- Spec-side normalized positional frequency for C5, following the spec's
words (section 4.3): the number of candidate words carrying the letter at
the position, divided by the candidate count. -/
def posFreq (cands : List Word) (l : Char) (i : Nat) : ℚ :=
  ((cposFreq cands l i : ℕ) : ℚ) / (cands.length : ℚ)

/-- Normalization helper: dividing numerator and denominator of the
positional ratio by the candidate count leaves it unchanged. -/
lemma cpos_ratio_norm (cands : List Word) (h : 0 < cands.length)
    (l : Char) (i : Nat) :
    posFreq cands l i / ((List.range 5).map fun j => posFreq cands l j).sum =
      ((cposFreq cands l i : ℕ) : ℚ) /
        ((List.range 5).map fun j => ((cposFreq cands l j : ℕ) : ℚ)).sum := by
  have hn : ((cands.length : ℕ) : ℚ) ≠ 0 := by
    exact_mod_cast h.ne'
  have hsum : ((List.range 5).map fun j => posFreq cands l j).sum =
      ((List.range 5).map fun j => ((cposFreq cands l j : ℕ) : ℚ)).sum /
        (cands.length : ℚ) := by
    simp only [posFreq, div_eq_mul_inv]
    rw [List.sum_map_mul_right]
  rw [hsum, posFreq, div_div_div_cancel_right₀ hn]

/-- Claim C5: the FreqFilterBot2 score, computed by the code from raw
positional counts, coincides with the spec's formula that uses the
normalized positional frequency, position by position. -/
theorem C5_pos_score (cands : List Word) (h : 0 < cands.length)
    (posWgt : ℚ) (hwgt : 0 < posWgt) (w : Word) :
    scorePos cands posWgt w =
      (w.enum.map fun p =>
        charFreq cands p.2 / (w.count p.2 : ℚ) *
          (1 + (posFreq cands p.2 p.1 /
            ((List.range 5).map fun j => posFreq cands p.2 j).sum /
            posWgt))).sum := by
  rw [scorePos]
  congr 1
  apply List.map_congr_left
  intro p hp
  rw [cpos_ratio_norm cands h p.2 p.1]

/-- Witness for C5 on a concrete one-word candidate set with unit weight. -/
theorem C5_pos_score_witness :
    0 < ([crankW] : List Word).length ∧ (0 : ℚ) < 1 ∧
    scorePos [crankW] 1 crankW =
      (crankW.enum.map fun p =>
        charFreq [crankW] p.2 / (crankW.count p.2 : ℚ) *
          (1 + (posFreq [crankW] p.2 p.1 /
            ((List.range 5).map fun j => posFreq [crankW] p.2 j).sum /
            1))).sum :=
  ⟨by decide, by norm_num, C5_pos_score [crankW] (by decide) 1 (by norm_num) crankW⟩

/-- Claim C6: for a candidate word and one of its positions, neither
divisor of the FreqFilterBot2 score is zero: the word contains its own
letter, and the positional-count total over the five positions counts the
word itself at that position. -/
theorem C6_no_div_zero (cands : List Word) (w : Word) (hw : w ∈ cands)
    (hlen : w.length = 5) (i : Nat) (hi : i < 5) :
    ((w.count (w.getD i 'a') : ℕ) : ℚ) ≠ 0 ∧
    ((List.range 5).map fun j =>
      ((cposFreq cands (w.getD i 'a') j : ℕ) : ℚ)).sum ≠ 0 := by
  have hil : i < w.length := by omega
  have hmem : w.getD i 'a' ∈ w := by
    rw [List.getD_eq_getElem w 'a' hil]
    exact List.getElem_mem hil
  constructor
  · have hc : 0 < w.count (w.getD i 'a') := List.count_pos_iff.mpr hmem
    exact_mod_cast hc.ne'
  · have h1 : 0 < cposFreq cands (w.getD i 'a') i := by
      rw [cposFreq]
      exact List.countP_pos_iff.mpr ⟨w, hw, by simp⟩
    have hsum : 0 < ((List.range 5).map fun j =>
        cposFreq cands (w.getD i 'a') j).sum :=
      lt_of_lt_of_le h1 (List.le_sum_of_mem
        (List.mem_map.mpr ⟨i, List.mem_range.mpr hi, rfl⟩))
    have hc : ((List.range 5).map fun j =>
        ((cposFreq cands (w.getD i 'a') j : ℕ) : ℚ)) =
        ((List.range 5).map fun j =>
          cposFreq cands (w.getD i 'a') j).map (fun n : ℕ => (n : ℚ)) := by
      rw [List.map_map]
      rfl
    rw [hc, ← Nat.cast_list_sum]
    exact_mod_cast hsum.ne'

/-- Witness for C6 at the first position of a concrete candidate word. -/
theorem C6_no_div_zero_witness :
    crankW ∈ dictEx ∧ crankW.length = 5 ∧ (0 : Nat) < 5 ∧
    (((crankW.count (crankW.getD 0 'a') : ℕ) : ℚ) ≠ 0 ∧
     ((List.range 5).map fun j =>
       ((cposFreq dictEx (crankW.getD 0 'a') j : ℕ) : ℚ)).sum ≠ 0) :=
  ⟨by decide, rfl, by decide, C6_no_div_zero dictEx crankW (by decide) rfl 0 (by decide)⟩

/-- Transitivity of the descending comparison. -/
lemma descBy_trans {α : Type} :
    ∀ a b c : α × ℚ, descBy a b → descBy b c → descBy a c := by
  intro a b c hab hbc
  simp only [descBy, decide_eq_true_iff] at hab hbc ⊢
  exact le_trans hbc hab

/-- Totality of the descending comparison. -/
lemma descBy_total {α : Type} :
    ∀ a b : α × ℚ, descBy a b || descBy b a := by
  intro a b
  simp only [descBy, Bool.or_eq_true, decide_eq_true_iff]
  exact le_total b.2 a.2

/-- Head of the stable descending sort after consing one element: the new
element wins ties, the previous head wins only strictly. -/
lemma head_mergeSort_cons {α : Type} (a : α × ℚ) (ps : List (α × ℚ)) :
    ((a :: ps).mergeSort descBy).head? =
      some (match (ps.mergeSort descBy).head? with
        | none => a
        | some m => if m.2 ≤ a.2 then a else m) := by
  obtain ⟨l₁, l₂, h1, h2, h3⟩ :=
    List.mergeSort_cons descBy_trans descBy_total a ps
  cases l₁ with
  | nil =>
    simp only [List.nil_append] at h1 h2
    rw [h1, h2]
    cases l₂ with
    | nil => rfl
    | cons m l₂ =>
      have hs := List.sorted_mergeSort descBy_trans descBy_total (a :: ps)
      rw [h1] at hs
      have hrel : descBy a m := (List.pairwise_cons.mp hs).1 m (by simp)
      have hle : m.2 ≤ a.2 := by simpa [descBy] using hrel
      simp [hle]
  | cons b l₁ =>
    rw [h1, h2]
    have hb := h3 b (by simp)
    have hnle : ¬ (b.2 ≤ a.2) := by simpa [descBy] using hb
    simp [hnle]

/-- Head of the stable descending sort of a scored list: it carries the
first element of the original list attaining the maximal score. -/
lemma head_mergeSort_map {α : Type} (f : α → ℚ) :
    ∀ l : List α, l ≠ [] →
    ∃ a, ((l.map fun x => (x, f x)).mergeSort descBy).head? = some (a, f a) ∧
      a ∈ l ∧ (∀ b ∈ l, f b ≤ f a) ∧
      ∃ i, ∃ hi : i < l.length, l.get ⟨i, hi⟩ = a ∧
        ∀ j, ∀ hj : j < l.length, j < i → f (l.get ⟨j, hj⟩) < f a := by
  intro l
  induction l with
  | nil => intro h; exact absurd rfl h
  | cons x l ih =>
    intro _
    rcases eq_or_ne l [] with rfl | hne
    · refine ⟨x, by simp, by simp, by simp, 0, by simp, rfl, ?_⟩
      intro j hj hj0
      omega
    · obtain ⟨a, hhead, hmem, hmax, i, hi, hget, hfirst⟩ := ih hne
      rw [List.map_cons, head_mergeSort_cons, hhead]
      by_cases hle : f a ≤ f x
      · refine ⟨x, by simp [hle], by simp, ?_, 0, by simp, rfl, ?_⟩
        · intro b hb
          rcases List.mem_cons.mp hb with rfl | hb
          · exact le_refl _
          · exact le_trans (hmax b hb) hle
        · intro j hj hj0
          omega
      · have hlt : f x < f a := lt_of_not_le hle
        refine ⟨a, by simp [hle], List.mem_cons_of_mem x hmem, ?_,
          i + 1, Nat.succ_lt_succ hi, ?_, ?_⟩
        · intro b hb
          rcases List.mem_cons.mp hb with rfl | hb
          · exact le_of_lt hlt
          · exact hmax b hb
        · rw [List.get_cons_succ]
          exact hget
        · intro j hj hji
          match j with
          | 0 => simpa using hlt
          | j + 1 =>
            rw [List.get_cons_succ]
            exact hfirst j (by simpa using hj) (by omega)

/-- Claim C7: on a non-empty candidate list, both scoring bots select a
member of the candidate list whose score is maximal, and among equal
maximal scores the selected word is the first in candidate iteration order
(every strictly earlier candidate scores strictly lower). -/
theorem C7_argmax (cands : List Word) (h : cands ≠ []) (posWgt : ℚ) :
    (∃ w, pickTop (scoresFreq cands) = some w ∧ w ∈ cands ∧
      (∀ v ∈ cands, scoreFreq cands v ≤ scoreFreq cands w) ∧
      ∃ i, ∃ hi : i < cands.length, cands.get ⟨i, hi⟩ = w ∧
        ∀ j, ∀ hj : j < cands.length, j < i →
          scoreFreq cands (cands.get ⟨j, hj⟩) < scoreFreq cands w) ∧
    (∃ w, pickTop (scoresPos cands posWgt) = some w ∧ w ∈ cands ∧
      (∀ v ∈ cands, scorePos cands posWgt v ≤ scorePos cands posWgt w) ∧
      ∃ i, ∃ hi : i < cands.length, cands.get ⟨i, hi⟩ = w ∧
        ∀ j, ∀ hj : j < cands.length, j < i →
          scorePos cands posWgt (cands.get ⟨j, hj⟩) <
            scorePos cands posWgt w) := by
  constructor
  · obtain ⟨a, hhead, hmem, hmax, hfirst⟩ :=
      head_mergeSort_map (scoreFreq cands) cands h
    refine ⟨a, ?_, hmem, hmax, hfirst⟩
    rw [pickTop, scoresFreq, hhead]
    rfl
  · obtain ⟨a, hhead, hmem, hmax, hfirst⟩ :=
      head_mergeSort_map (scorePos cands posWgt) cands h
    refine ⟨a, ?_, hmem, hmax, hfirst⟩
    rw [pickTop, scoresPos, hhead]
    rfl

/-- Witness for C7 on the concrete example dictionary: both bots select a
word, and it is a member of the candidate list. -/
theorem C7_argmax_witness :
    (dictEx : List Word) ≠ [] ∧
    (∃ w, pickTop (scoresFreq dictEx) = some w ∧ w ∈ dictEx) ∧
    (∃ w, pickTop (scoresPos dictEx 1) = some w ∧ w ∈ dictEx) := by
  refine ⟨by decide, ?_, ?_⟩
  · obtain ⟨w, h1, h2, h3, h4⟩ := (C7_argmax dictEx (by decide) 1).1
    exact ⟨w, h1, h2⟩
  · obtain ⟨w, h1, h2, h3, h4⟩ := (C7_argmax dictEx (by decide) 1).2
    exact ⟨w, h1, h2⟩

/-- Loop invariant for the game loop: with fuel plus used guesses equal to
six, the loop errors out, or wins with the guess count it reached, or
loses with the marker count 7 after six graded guesses. -/
lemma playAux_spec (bot : List GuessRecord → Word) (dict : List Word)
    (target : Word) :
    ∀ fuel guesses past, 0 < fuel → fuel + guesses = 6 →
    (∃ e, playAux bot dict target fuel guesses past = .error e) ∨
    ∃ win k hist,
      playAux bot dict target fuel guesses past = .ok (win, k, hist) ∧
      (win = true → guesses < k ∧ k ≤ 6 ∧
        hist.length = past.length + (k - guesses)) ∧
      (win = false → k = 7 ∧ hist.length = past.length + (6 - guesses)) := by
  intro fuel
  induction fuel with
  | zero => intro g p h; exact absurd h (lt_irrefl 0)
  | succ f ih =>
    intro g past hpos hinv
    cases htw : tryWord dict target (bot past) with
    | error e =>
      left
      exact ⟨e, by simp [playAux, htw]⟩
    | ok pr =>
      obtain ⟨res, win⟩ := pr
      by_cases hwin : win = true
      · refine Or.inr ⟨win, g + 1, past ++ [res],
          by simp [playAux, htw, hwin], ?_, ?_⟩
        · intro _
          refine ⟨by omega, by omega, ?_⟩
          simp
        · intro hf
          rw [hwin] at hf
          simp at hf
      · have hwin' : win = false := eq_false_of_ne_true hwin
        by_cases h6 : g + 1 = 6
        · refine Or.inr ⟨win, g + 2, past ++ [res],
            by simp [playAux, htw, hwin', h6], ?_, ?_⟩
          · intro hf
            rw [hwin'] at hf
            simp at hf
          · intro _
            refine ⟨by omega, ?_⟩
            simp
            omega
        · have hf : 0 < f := by omega
          have hinv2 : f + (g + 1) = 6 := by omega
          rcases ih (g + 1) (past ++ [res]) hf hinv2 with
            ⟨e, he⟩ | ⟨win2, k, hist, hok, hw1, hw0⟩
          · left
            exact ⟨e, by simp [playAux, htw, hwin', h6, he]⟩
          · right
            refine ⟨win2, k, hist,
              by simp [playAux, htw, hwin', h6, hok], ?_, ?_⟩
            · intro ht
              obtain ⟨a1, a2, a3⟩ := hw1 ht
              refine ⟨by omega, a2, ?_⟩
              simp at a3
              omega
            · intro hf0
              obtain ⟨a1, a2⟩ := hw0 hf0
              refine ⟨a1, ?_⟩
              simp at a2
              omega

/-- Claim C8: for every strategist and every game, the loop terminates,
either with a fatal grading error or with a result in which at most six
guesses were graded, the guess count is at most the loss marker 7, the win
flag holds exactly when the count is at most 6, a win reports as many
recorded turns as its count, and a loss reports the marker 7 with six
recorded turns. -/
theorem C8_termination (bot : List GuessRecord → Word) (dict : List Word)
    (target : Word) :
    (∃ e, playGame bot dict target = .error e) ∨
    ∃ win guesses hist,
      playGame bot dict target = .ok (win, guesses, hist) ∧
      hist.length ≤ 6 ∧ guesses ≤ 7 ∧
      (win = true ↔ guesses ≤ 6) ∧
      (win = true → hist.length = guesses) ∧
      (win = false → guesses = 7 ∧ hist.length = 6) := by
  rcases playAux_spec bot dict target 6 0 [] (by omega) (by omega) with
    h | ⟨win, k, hist, hok, hw1, hw0⟩
  · exact Or.inl h
  · right
    cases win with
    | false =>
      obtain ⟨h7, hlen⟩ := hw0 rfl
      simp only [List.length_nil, Nat.zero_add, Nat.sub_zero] at hlen
      refine ⟨false, k, hist, by simpa [playGame] using hok,
        by omega, by omega, ?_, ?_, fun _ => ⟨h7, hlen⟩⟩
      · constructor
        · intro ht
          exact absurd ht (by simp)
        · intro hk
          exact absurd hk (by omega)
      · intro ht
        exact absurd ht (by simp)
    | true =>
      obtain ⟨hlt, hle, hlen⟩ := hw1 rfl
      simp only [List.length_nil, Nat.zero_add, Nat.sub_zero] at hlen
      refine ⟨true, k, hist, by simpa [playGame] using hok,
        by omega, by omega, ⟨fun _ => hle, fun _ => rfl⟩, fun _ => hlen, ?_⟩
      intro hf
      exact absurd hf (by simp)

/-- Witness for C8 on a concrete strategist that always guesses crank
against target whack in the example dictionary. -/
theorem C8_termination_witness :
    (∃ e, playGame (fun _ => crankW) dictEx whackW = .error e) ∨
    ∃ win guesses hist,
      playGame (fun _ => crankW) dictEx whackW = .ok (win, guesses, hist) ∧
      hist.length ≤ 6 ∧ guesses ≤ 7 ∧
      (win = true ↔ guesses ≤ 6) ∧
      (win = true → hist.length = guesses) ∧
      (win = false → guesses = 7 ∧ hist.length = 6) :=
  C8_termination (fun _ => crankW) dictEx whackW

